import Mathlib

/-!
Verification development for the graph-analytics pipeline
(`graph_algos`): the in-memory graph model and builder
(`algorithms/graph_builder.py`), the algorithm-run contract
(`algorithms/base.py`), the community registry and analyzer
(`algorithms/community.py`), and the result writer
(`core/dgraph_client.py`).

Python dictionaries are embedded as association lists that preserve
insertion order; Python exceptions are embedded as `Except` values;
wall-clock readings and float arithmetic are embedded as rationals
supplied explicitly as inputs; the external store (`pydgraph`) is
embedded as an environment function giving the outcome of each
successive mutation call.
-/

/-! ## Attribute bags (Python keyword-argument dictionaries) -/

/-- An open-ended attribute mapping: string key to string value,
insertion-ordered, as a Python `dict` of extra attributes. -/
abbrev Attrs := List (String × String)

/-- `dict.update` of one key: overwrite in place if the key is bound,
else append at the end (Python dict insertion order). -/
def setAttr (as : Attrs) (k v : String) : Attrs :=
  if as.any (fun p => p.1 = k) then
    as.map (fun p => if p.1 = k then (k, v) else p)
  else
    as ++ [(k, v)]

/-- `old.update(new)`: fold the single-key update over `new`. -/
def updateAttrs (old new : Attrs) : Attrs :=
  new.foldl (fun acc p => setAttr acc p.1 p.2) old

/-! ## Graph model (the NetworkX `Graph` / `DiGraph` as used here) -/

/-- A graph node: identifier, display name, type tag and the extra
attribute bag, as stored by `graph.add_node` in `build_graph`. -/
structure GNode where
  id : String
  name : String
  ntype : String
  attrs : Attrs
deriving DecidableEq, Inhabited

/-- A graph edge: endpoints, relationship-type tag and the extra
attribute bag, as stored by `graph.add_edge` in `build_graph`. -/
structure GEdge where
  src : String
  tgt : String
  rel : String
  attrs : Attrs
deriving DecidableEq, Inhabited

/-- The graph model: directedness flag plus insertion-ordered node and
edge lists.  An undirected edge is stored once, oriented as first
submitted (NetworkX reports it that way in `graph.edges`). -/
structure Graph where
  directed : Bool
  nodes : List GNode
  edges : List GEdge
deriving DecidableEq, Inhabited

/-- The identifiers of the graph's nodes. -/
def nodeIds (g : Graph) : List String :=
  g.nodes.map GNode.id

/-- `x in graph` (NetworkX node membership). -/
def hasNode (g : Graph) (x : String) : Bool :=
  g.nodes.any (fun nd => nd.id = x)

/-- Whether an already-stored edge `e` is the same edge as a submission
with endpoints `s`, `t`: same ordered pair when directed, same
unordered pair when undirected. -/
def edgeKeyMatch (directed : Bool) (s t : String) (e : GEdge) : Bool :=
  (e.src = s && e.tgt = t) || (!directed && e.src = t && e.tgt = s)

/-- `graph.add_edge(s, t, relationship_type=rel, **attrs)`: if the edge
already exists its attributes are updated in place (no parallel edge is
created); otherwise the edge is appended. -/
def addEdge (g : Graph) (s t rel : String) (attrs : Attrs) : Graph :=
  if g.edges.any (edgeKeyMatch g.directed s t) then
    { g with edges := g.edges.map (fun e =>
        if edgeKeyMatch g.directed s t e then
          { e with rel := rel, attrs := updateAttrs e.attrs attrs }
        else e) }
  else
    { g with edges := g.edges ++ [⟨s, t, rel, attrs⟩] }

/-! ## Raw records and the graph builder (`GraphBuilder.build_graph`) -/

/-- A raw node record from the store.  The named fields mirror the keys
`build_graph` reads (`uid`, `node_id`, `name`, `type`); `attrs` holds
the remaining keys (the source filters those four out of the `**`
expansion, so `attrs` is exactly the extra-key dictionary).  A `none`
field is an absent key. -/
structure RawNode where
  uid : Option String
  node_id : Option String
  name : Option String
  ntype : Option String
  attrs : Attrs
deriving DecidableEq, Inhabited

/-- A raw edge record from the store: `source`, `target`,
`relationship_type` and the remaining keys. -/
structure RawEdge where
  source : Option String
  target : Option String
  relationship_type : Option String
  attrs : Attrs
deriving DecidableEq, Inhabited

/-- Python truthiness of an optional string: `None` and `""` are falsy.
Returns the string when truthy, `none` otherwise. -/
def truthyId (o : Option String) : Option String :=
  match o with
  | none => none
  | some s => if s = "" then none else some s

/-- `node.get("uid") or node.get("node_id")` followed by the
`if not node_id: continue` guard: the first truthy of the two fields. -/
def rawNodeId (r : RawNode) : Option String :=
  match truthyId r.uid with
  | some s => some s
  | none => truthyId r.node_id

/-- One iteration of the node loop of `build_graph`: skip records with
no truthy id, otherwise `add_node` (an existing node's name, type and
extra attributes are updated in place, NetworkX `add_node` semantics). -/
def addRawNode (g : Graph) (r : RawNode) : Graph :=
  match rawNodeId r with
  | none => g
  | some nid =>
    let nm := r.name.getD ""
    let tp := r.ntype.getD ""
    if g.nodes.any (fun nd => nd.id = nid) then
      { g with nodes := g.nodes.map (fun nd =>
          if nd.id = nid then
            { nd with name := nm, ntype := tp, attrs := updateAttrs nd.attrs r.attrs }
          else nd) }
    else
      { g with nodes := g.nodes ++ [⟨nid, nm, tp, r.attrs⟩] }

/-- One iteration of the edge loop of `build_graph`: drop the record if
either endpoint key is missing or falsy, drop self-loops unless
`include_self_loops`, drop the record unless both endpoints are already
nodes of the graph, otherwise `add_edge`. -/
def addRawEdge (includeSelfLoops : Bool) (g : Graph) (r : RawEdge) : Graph :=
  match truthyId r.source with
  | none => g
  | some s =>
    match truthyId r.target with
    | none => g
    | some t =>
      if !includeSelfLoops && s = t then g
      else if hasNode g s && hasNode g t then
        addEdge g s t (r.relationship_type.getD "related_to") r.attrs
      else g

/-- NetworkX degree of a node in this storage: each stored edge
contributes one per incident endpoint, so a self-loop counts twice
(undirected loop degree 2; directed in-degree plus out-degree). -/
def degree (g : Graph) (n : String) : Nat :=
  g.edges.foldl
    (fun acc e => acc + (if e.src = n then 1 else 0) + (if e.tgt = n then 1 else 0)) 0

/-- `graph.remove_nodes_from(ns)`: drop the listed nodes and every edge
incident to one of them. -/
def removeNodes (g : Graph) (ns : List String) : Graph :=
  { g with
    nodes := g.nodes.filter (fun nd => !ns.contains nd.id),
    edges := g.edges.filter (fun e => !ns.contains e.src && !ns.contains e.tgt) }

/-- The `min_degree` post-pass of `build_graph`: collect the nodes of
the fully-built graph whose degree is strictly below the threshold and
remove them in one pass (no re-evaluation after removal). -/
def pruneMinDegree (g : Graph) (m : Nat) : Graph :=
  removeNodes g ((nodeIds g).filter (fun n => degree g n < m))

/-- `GraphBuilder.build_graph`: add the node records, then the edge
records, then prune by minimum degree when the threshold is positive. -/
def buildGraph (nodes : List RawNode) (edges : List RawEdge)
    (directed includeSelfLoops : Bool) (minDegree : Nat) : Graph :=
  let g0 : Graph := ⟨directed, [], []⟩
  let g1 := nodes.foldl addRawNode g0
  let g2 := edges.foldl (addRawEdge includeSelfLoops) g1
  if 0 < minDegree then pruneMinDegree g2 minDegree else g2

/-- Shorthand for a raw node record carrying only a `uid`. -/
def rawN (i : String) : RawNode := ⟨some i, none, none, none, []⟩

/-- Shorthand for a raw edge record carrying only endpoints. -/
def rawE (s t : String) : RawEdge := ⟨some s, some t, none, []⟩

example :
    nodeIds (buildGraph [rawN "a", rawN "b", rawN "c"]
      [rawE "a" "b", rawE "b" "c"] false false 2) = ["b"] := by decide

example :
    (buildGraph [rawN "a", rawN "b", rawN "c"]
      [rawE "a" "b", rawE "b" "c"] false false 2).edges = [] := by decide

example :
    (buildGraph [rawN "a"] [rawE "a" "a"] false false 0).edges = [] := by decide

example :
    (buildGraph [rawN "a"] [rawE "a" "a"] false true 0).edges.length = 1 := by decide

/-! ## Edge-admission invariants of the builder (C5) -/

/-- The invariant bundle the edge loop maintains: every edge's
endpoints are nodes of the graph, no self-loop unless allowed, and no
two stored edges are the same (source, target, direction) key. -/
def EdgeInv (il : Bool) (g : Graph) : Prop :=
  (∀ e ∈ g.edges, e.src ∈ nodeIds g ∧ e.tgt ∈ nodeIds g) ∧
  (il = false → ∀ e ∈ g.edges, e.src ≠ e.tgt) ∧
  g.edges.Pairwise (fun e1 e2 => edgeKeyMatch g.directed e1.src e1.tgt e2 = false)

theorem hasNode_iff (g : Graph) (x : String) :
    hasNode g x = true ↔ x ∈ nodeIds g := by
  simp [hasNode, nodeIds, List.any_eq_true, List.mem_map]

theorem addRawNode_edges (g : Graph) (r : RawNode) :
    (addRawNode g r).edges = g.edges := by
  unfold addRawNode
  cases rawNodeId r
  · rfl
  · dsimp only
    split <;> rfl

theorem foldl_addRawNode_edges (l : List RawNode) (g : Graph) :
    (l.foldl addRawNode g).edges = g.edges := by
  induction l generalizing g with
  | nil => rfl
  | cons r l ih => simp [List.foldl_cons, ih, addRawNode_edges]

theorem addEdge_nodes (g : Graph) (s t rel : String) (attrs : Attrs) :
    (addEdge g s t rel attrs).nodes = g.nodes := by
  unfold addEdge
  split <;> rfl

theorem addEdge_directed (g : Graph) (s t rel : String) (attrs : Attrs) :
    (addEdge g s t rel attrs).directed = g.directed := by
  unfold addEdge
  split <;> rfl

theorem edgeKeyMatch_flip (d : Bool) (s t : String) (e : GEdge) (rel : String) (attrs : Attrs) :
    edgeKeyMatch d e.src e.tgt ⟨s, t, rel, attrs⟩ = edgeKeyMatch d s t e := by
  cases d <;> simp [edgeKeyMatch, eq_comm, Bool.and_comm]

theorem edgeInv_addEdge (il : Bool) (g : Graph) (s t rel : String) (attrs : Attrs)
    (h : EdgeInv il g) (hs : s ∈ nodeIds g) (ht : t ∈ nodeIds g)
    (hst : il = false → s ≠ t) : EdgeInv il (addEdge g s t rel attrs) := by
  obtain ⟨hend, hloop, hkeys⟩ := h
  unfold addEdge
  split
  case isTrue hmatch =>
    refine ⟨?_, ?_, ?_⟩
    · intro e he
      simp only [List.mem_map] at he
      obtain ⟨e0, he0, rfl⟩ := he
      constructor
      · have := (hend e0 he0).1
        split <;> exact this
      · have := (hend e0 he0).2
        split <;> exact this
    · intro hil e he
      simp only [List.mem_map] at he
      obtain ⟨e0, he0, rfl⟩ := he
      have := hloop hil e0 he0
      split <;> simpa using this
    · rw [List.pairwise_map]
      refine hkeys.imp ?_
      intro a b hab
      split <;> split <;> simpa using hab
  case isFalse hmatch =>
    rw [List.any_eq_true] at hmatch
    push_neg at hmatch
    refine ⟨?_, ?_, ?_⟩
    · intro e he
      rw [List.mem_append] at he
      rcases he with he | he
      · exact hend e he
      · simp only [List.mem_singleton] at he
        subst he
        exact ⟨hs, ht⟩
    · intro hil e he
      rw [List.mem_append] at he
      rcases he with he | he
      · exact hloop hil e he
      · simp only [List.mem_singleton] at he
        subst he
        exact hst hil
    · rw [List.pairwise_append]
      refine ⟨hkeys, List.pairwise_singleton _ _, ?_⟩
      intro a ha b hb
      simp only [List.mem_singleton] at hb
      subst hb
      rw [edgeKeyMatch_flip]
      have := hmatch a ha
      simpa using this

theorem addRawEdge_nodes (il : Bool) (g : Graph) (r : RawEdge) :
    (addRawEdge il g r).nodes = g.nodes := by
  unfold addRawEdge
  cases truthyId r.source
  · rfl
  · dsimp only
    cases truthyId r.target
    · rfl
    · dsimp only
      split
      · rfl
      · split
        · exact addEdge_nodes ..
        · rfl

theorem edgeInv_addRawEdge (il : Bool) (g : Graph) (r : RawEdge)
    (h : EdgeInv il g) : EdgeInv il (addRawEdge il g r) := by
  unfold addRawEdge
  cases truthyId r.source
  · exact h
  · dsimp only
    cases truthyId r.target
    · exact h
    · dsimp only
      split
      case isTrue hloop => exact h
      case isFalse hloop =>
        split
        case isTrue hboth =>
          rw [Bool.and_eq_true] at hboth
          refine edgeInv_addEdge il g _ _ _ _ h
            ((hasNode_iff ..).mp hboth.1) ((hasNode_iff ..).mp hboth.2) ?_
          intro hil
          simp [hil] at hloop
          exact hloop
        case isFalse hboth => exact h

theorem edgeInv_foldl_addRawEdge (il : Bool) (l : List RawEdge) (g : Graph)
    (h : EdgeInv il g) : EdgeInv il (l.foldl (addRawEdge il) g) := by
  induction l generalizing g with
  | nil => exact h
  | cons r l ih => exact ih _ (edgeInv_addRawEdge il g r h)

theorem edgeInv_removeNodes (il : Bool) (g : Graph) (ns : List String)
    (h : EdgeInv il g) : EdgeInv il (removeNodes g ns) := by
  obtain ⟨hend, hloop, hkeys⟩ := h
  refine ⟨?_, ?_, ?_⟩
  · intro e he
    simp only [removeNodes, List.mem_filter, Bool.and_eq_true, Bool.not_eq_true'] at he
    obtain ⟨he, hsrc, htgt⟩ := he
    have hsrc' : e.src ∉ ns := by simpa using hsrc
    have htgt' : e.tgt ∉ ns := by simpa using htgt
    have hend' := hend e he
    constructor
    · simp only [removeNodes, nodeIds, List.mem_map, List.mem_filter]
      obtain ⟨nd, hnd, hid⟩ := List.mem_map.mp hend'.1
      exact ⟨nd, ⟨hnd, by simp [hid, hsrc']⟩, hid⟩
    · simp only [removeNodes, nodeIds, List.mem_map, List.mem_filter]
      obtain ⟨nd, hnd, hid⟩ := List.mem_map.mp hend'.2
      exact ⟨nd, ⟨hnd, by simp [hid, htgt']⟩, hid⟩
  · intro hil e he
    simp only [removeNodes, List.mem_filter] at he
    exact hloop hil e he.1
  · exact hkeys.sublist (List.filter_sublist _)

theorem edgeInv_buildGraph (nodes : List RawNode) (edges : List RawEdge)
    (directed il : Bool) (m : Nat) :
    EdgeInv il (buildGraph nodes edges directed il m) := by
  have hbase : EdgeInv il (nodes.foldl addRawNode ⟨directed, [], []⟩) := by
    refine ⟨?_, ?_, ?_⟩ <;>
      simp [foldl_addRawNode_edges, List.Pairwise.nil]
  have h2 := edgeInv_foldl_addRawEdge il edges _ hbase
  unfold buildGraph
  dsimp only
  split
  · exact edgeInv_removeNodes il _ _ h2
  · exact h2

/-! ## Attribute lookup and the overwrite semantics of duplicates -/

/-- Association-list lookup, the embedding of Python `d[k]` access
(first binding wins, as in a Python dict where keys are unique). -/
def alookup {α β : Type} [DecidableEq α] (l : List (α × β)) (k : α) : Option β :=
  match l with
  | [] => none
  | p :: rest => if p.1 = k then some p.2 else alookup rest k

theorem alookup_append_of_none {α β : Type} [DecidableEq α]
    (l1 l2 : List (α × β)) (k : α) (h : alookup l1 k = none) :
    alookup (l1 ++ l2) k = alookup l2 k := by
  induction l1 with
  | nil => rfl
  | cons p rest ih =>
    by_cases hp : p.1 = k
    · simp [alookup, hp] at h
    · simp only [alookup, if_neg hp] at h
      simpa [alookup, hp] using ih h

theorem alookup_eq_none_of_any_eq_false {α β : Type} [DecidableEq α]
    (l : List (α × β)) (k : α) (h : l.any (fun p => p.1 = k) = false) :
    alookup l k = none := by
  induction l with
  | nil => rfl
  | cons p rest ih =>
    simp only [List.any_cons, Bool.or_eq_false_iff, decide_eq_false_iff_not] at h
    simp [alookup, h.1, ih h.2]

theorem alookup_overwrite (as : Attrs) (k v : String)
    (h : as.any (fun p => p.1 = k) = true) :
    alookup (as.map (fun p => if p.1 = k then (k, v) else p)) k = some v := by
  induction as with
  | nil => simp at h
  | cons p rest ih =>
    by_cases hp : p.1 = k
    · simp [alookup, hp]
    · simp only [List.any_cons, Bool.or_eq_true, decide_eq_true_eq] at h
      rcases h with h | h
      · exact absurd h hp
      · simp [alookup, hp, ih h]

theorem alookup_setAttr_self (as : Attrs) (k v : String) :
    alookup (setAttr as k v) k = some v := by
  unfold setAttr
  split
  case isTrue h => exact alookup_overwrite as k v h
  case isFalse h =>
    rw [Bool.not_eq_true] at h
    rw [alookup_append_of_none _ _ _ (alookup_eq_none_of_any_eq_false _ _ h)]
    simp [alookup]

theorem alookup_map_overwrite_ne (as : Attrs) (k v k' : String) (h : k' ≠ k) :
    alookup (as.map (fun p => if p.1 = k then (k, v) else p)) k' = alookup as k' := by
  induction as with
  | nil => rfl
  | cons p rest ih =>
    by_cases hp : p.1 = k
    · have hpk' : ¬ p.1 = k' := fun hh => h (hh.symm.trans hp)
      simp [alookup, hp, hpk', Ne.symm h, ih]
    · by_cases hp' : p.1 = k'
      · simp [alookup, hp, hp', h]
      · simp [alookup, hp, hp', ih]

theorem alookup_append_single_ne (as : Attrs) (k v k' : String) (h : k' ≠ k) :
    alookup (as ++ [(k, v)]) k' = alookup as k' := by
  induction as with
  | nil => simp [alookup, Ne.symm h]
  | cons p rest ih =>
    by_cases hp : p.1 = k'
    · simp [alookup, hp]
    · simp [alookup, hp, ih]

theorem alookup_setAttr_ne (as : Attrs) (k v k' : String) (h : k' ≠ k) :
    alookup (setAttr as k v) k' = alookup as k' := by
  unfold setAttr
  split
  · exact alookup_map_overwrite_ne as k v k' h
  · exact alookup_append_single_ne as k v k' h

theorem alookup_updateAttrs_of_not_mem (old new : Attrs) (k : String)
    (h : k ∉ new.map Prod.fst) :
    alookup (updateAttrs old new) k = alookup old k := by
  induction new generalizing old with
  | nil => rfl
  | cons p rest ih =>
    simp only [List.map_cons, List.mem_cons] at h
    push_neg at h
    have hstep : updateAttrs old (p :: rest) = updateAttrs (setAttr old p.1 p.2) rest := rfl
    rw [hstep, ih _ h.2, alookup_setAttr_ne _ _ _ _ h.1]

/-- `old.update(new)` binds every key of `new` to its `new` value: the
incoming attributes overwrite the existing ones. -/
theorem alookup_updateAttrs (old new : Attrs)
    (hnd : (new.map Prod.fst).Nodup) (k v : String) (hkv : (k, v) ∈ new) :
    alookup (updateAttrs old new) k = some v := by
  induction new generalizing old with
  | nil => simp at hkv
  | cons p rest ih =>
    simp only [List.map_cons, List.nodup_cons] at hnd
    have hstep : updateAttrs old (p :: rest) = updateAttrs (setAttr old p.1 p.2) rest := rfl
    rw [hstep]
    rcases List.mem_cons.mp hkv with h | h
    · have hk : k ∉ rest.map Prod.fst := by
        rw [← h] at hnd
        exact hnd.1
      rw [alookup_updateAttrs_of_not_mem _ _ _ hk, ← h]
      exact alookup_setAttr_self ..
    · exact ih _ hnd.2 h

/-- A duplicate edge submission leaves the edge count unchanged: no
parallel edge is created. -/
theorem addEdge_dup_length (g : Graph) (s t rel : String) (attrs : Attrs)
    (h : g.edges.any (edgeKeyMatch g.directed s t) = true) :
    (addEdge g s t rel attrs).edges.length = g.edges.length := by
  unfold addEdge
  rw [if_pos h]
  simp

/-- A duplicate edge submission rewrites the stored edge in place: the
matched edge survives with its original orientation, the new
relationship type, and its attributes updated by the new ones. -/
theorem addEdge_dup_updates (g : Graph) (s t rel : String) (attrs : Attrs)
    (e : GEdge) (he : e ∈ g.edges) (hm : edgeKeyMatch g.directed s t e = true) :
    (⟨e.src, e.tgt, rel, updateAttrs e.attrs attrs⟩ : GEdge) ∈ (addEdge g s t rel attrs).edges := by
  unfold addEdge
  have hany : g.edges.any (edgeKeyMatch g.directed s t) = true :=
    List.any_eq_true.mpr ⟨e, he, hm⟩
  rw [if_pos hany]
  simp only [List.mem_map]
  exact ⟨e, he, by rw [if_pos hm]⟩

/-! ## Single-pass min-degree pruning (C6) -/

theorem nodeIds_removeNodes_mem (g : Graph) (ns : List String) (x : String) :
    x ∈ nodeIds (removeNodes g ns) ↔ x ∈ nodeIds g ∧ x ∉ ns := by
  simp only [removeNodes, nodeIds, List.mem_map, List.mem_filter]
  constructor
  · rintro ⟨nd, ⟨hnd, hk⟩, rfl⟩
    exact ⟨⟨nd, hnd, rfl⟩, by simpa using hk⟩
  · rintro ⟨⟨nd, hnd, rfl⟩, hx⟩
    exact ⟨nd, ⟨hnd, by simpa using hx⟩, rfl⟩

theorem mem_removeNodes_edges (g : Graph) (ns : List String) (e : GEdge) :
    e ∈ (removeNodes g ns).edges ↔ e ∈ g.edges ∧ e.src ∉ ns ∧ e.tgt ∉ ns := by
  simp only [removeNodes, List.mem_filter]
  constructor
  · rintro ⟨he, hk⟩
    simp only [Bool.and_eq_true] at hk
    exact ⟨he, by simpa using hk.1, by simpa using hk.2⟩
  · rintro ⟨he, hs, ht⟩
    refine ⟨he, ?_⟩
    simp only [Bool.and_eq_true]
    exact ⟨by simpa using hs, by simpa using ht⟩

theorem mem_pruneFilter (g : Graph) (m : Nat) (x : String) :
    x ∈ (nodeIds g).filter (fun n => degree g n < m) ↔
      x ∈ nodeIds g ∧ degree g x < m := by
  simp [List.mem_filter]

theorem nodeIds_pruneMinDegree (g : Graph) (m : Nat) (x : String) :
    x ∈ nodeIds (pruneMinDegree g m) ↔ x ∈ nodeIds g ∧ m ≤ degree g x := by
  rw [pruneMinDegree, nodeIds_removeNodes_mem, mem_pruneFilter]
  constructor
  · rintro ⟨hx, hn⟩
    refine ⟨hx, ?_⟩
    by_contra h
    exact hn ⟨hx, by omega⟩
  · rintro ⟨hx, hd⟩
    exact ⟨hx, fun hc => by omega⟩

theorem edges_pruneMinDegree (g : Graph) (m : Nat) (e : GEdge)
    (hend : ∀ e ∈ g.edges, e.src ∈ nodeIds g ∧ e.tgt ∈ nodeIds g) :
    e ∈ (pruneMinDegree g m).edges ↔
      e ∈ g.edges ∧ m ≤ degree g e.src ∧ m ≤ degree g e.tgt := by
  rw [pruneMinDegree, mem_removeNodes_edges, mem_pruneFilter, mem_pruneFilter]
  constructor
  · rintro ⟨he, hs, ht⟩
    refine ⟨he, ?_, ?_⟩
    · by_contra h
      exact hs ⟨(hend e he).1, by omega⟩
    · by_contra h
      exact ht ⟨(hend e he).2, by omega⟩
  · rintro ⟨he, hs, ht⟩
    exact ⟨he, fun hc => by omega, fun hc => by omega⟩

theorem buildGraph_pos (nodes : List RawNode) (edges : List RawEdge)
    (directed il : Bool) (m : Nat) (hm : 0 < m) :
    buildGraph nodes edges directed il m =
      pruneMinDegree (buildGraph nodes edges directed il 0) m := by
  unfold buildGraph
  simp [hm]

/-- C5: every graph produced by `build_graph` satisfies the
edge-admission invariant: each stored edge's endpoints are identifiers
of nodes present in the graph (records failing the endpoint guards are
dropped); when `include_self_loops` is false no stored edge is a
self-loop; no two stored edges share a (source, target, direction)
key; and a duplicate `add_edge` submission keeps the edge count
unchanged, rewriting the matched edge in place with its attribute bag
updated so that every incoming key is bound to its new value. -/
theorem build_graph_edge_invariants
    (nodes : List RawNode) (edges : List RawEdge)
    (directed il : Bool) (m : Nat) (g : Graph)
    (hg : g = buildGraph nodes edges directed il m) :
    (∀ e ∈ g.edges, e.src ∈ nodeIds g ∧ e.tgt ∈ nodeIds g) ∧
    (il = false → ∀ e ∈ g.edges, e.src ≠ e.tgt) ∧
    g.edges.Pairwise (fun e1 e2 => edgeKeyMatch g.directed e1.src e1.tgt e2 = false) ∧
    (∀ (g' : Graph) (s t rel : String) (attrs : Attrs),
      g'.edges.any (edgeKeyMatch g'.directed s t) = true →
        (addEdge g' s t rel attrs).edges.length = g'.edges.length) ∧
    (∀ (g' : Graph) (s t rel : String) (attrs : Attrs) (e : GEdge),
      e ∈ g'.edges → edgeKeyMatch g'.directed s t e = true →
        (⟨e.src, e.tgt, rel, updateAttrs e.attrs attrs⟩ : GEdge) ∈
          (addEdge g' s t rel attrs).edges) ∧
    (∀ (old new : Attrs), (new.map Prod.fst).Nodup →
      ∀ k v, (k, v) ∈ new → alookup (updateAttrs old new) k = some v) := by
  have h := edgeInv_buildGraph nodes edges directed il m
  rw [← hg] at h
  obtain ⟨h1, h2, h3⟩ := h
  exact ⟨h1, h2, h3, addEdge_dup_length, addEdge_dup_updates,
    fun old new hnd k v hkv => alookup_updateAttrs old new hnd k v hkv⟩

theorem build_graph_edge_invariants_witness :
    (∀ e ∈ (buildGraph [rawN "a", rawN "b"] [rawE "a" "b"] false false 0).edges,
      e.src ∈ nodeIds (buildGraph [rawN "a", rawN "b"] [rawE "a" "b"] false false 0) ∧
      e.tgt ∈ nodeIds (buildGraph [rawN "a", rawN "b"] [rawE "a" "b"] false false 0)) ∧
    (false = false →
      ∀ e ∈ (buildGraph [rawN "a", rawN "b"] [rawE "a" "b"] false false 0).edges,
        e.src ≠ e.tgt) ∧
    (buildGraph [rawN "a", rawN "b"] [rawE "a" "b"] false false 0).edges.Pairwise
      (fun e1 e2 => edgeKeyMatch
        (buildGraph [rawN "a", rawN "b"] [rawE "a" "b"] false false 0).directed
        e1.src e1.tgt e2 = false) ∧
    (∀ (g' : Graph) (s t rel : String) (attrs : Attrs),
      g'.edges.any (edgeKeyMatch g'.directed s t) = true →
        (addEdge g' s t rel attrs).edges.length = g'.edges.length) ∧
    (∀ (g' : Graph) (s t rel : String) (attrs : Attrs) (e : GEdge),
      e ∈ g'.edges → edgeKeyMatch g'.directed s t e = true →
        (⟨e.src, e.tgt, rel, updateAttrs e.attrs attrs⟩ : GEdge) ∈
          (addEdge g' s t rel attrs).edges) ∧
    (∀ (old new : Attrs), (new.map Prod.fst).Nodup →
      ∀ k v, (k, v) ∈ new → alookup (updateAttrs old new) k = some v) :=
  build_graph_edge_invariants [rawN "a", rawN "b"] [rawE "a" "b"]
    false false 0 _ rfl

/-- C6: with a positive `min_degree` the builder removes, in a single
pass over the fully-built graph, exactly the nodes whose degree there
is strictly below the threshold, together with all incident edges and
with no iterative re-pruning; on the 3-node path a-b-c with threshold
2 the result is the single node b with no edges, not an empty graph. -/
theorem build_graph_min_degree_single_pass
    (nodes : List RawNode) (edges : List RawEdge) (directed il : Bool)
    (m : Nat) (hm : 0 < m) :
    (∀ x, x ∈ nodeIds (buildGraph nodes edges directed il m) ↔
        x ∈ nodeIds (buildGraph nodes edges directed il 0) ∧
        m ≤ degree (buildGraph nodes edges directed il 0) x) ∧
    (∀ e, e ∈ (buildGraph nodes edges directed il m).edges ↔
        e ∈ (buildGraph nodes edges directed il 0).edges ∧
        m ≤ degree (buildGraph nodes edges directed il 0) e.src ∧
        m ≤ degree (buildGraph nodes edges directed il 0) e.tgt) ∧
    nodeIds (buildGraph [rawN "a", rawN "b", rawN "c"]
      [rawE "a" "b", rawE "b" "c"] false false 2) = ["b"] ∧
    (buildGraph [rawN "a", rawN "b", rawN "c"]
      [rawE "a" "b", rawE "b" "c"] false false 2).edges = [] := by
  have hrw := buildGraph_pos nodes edges directed il m hm
  refine ⟨?_, ?_, by decide, by decide⟩
  · intro x
    rw [hrw]
    exact nodeIds_pruneMinDegree _ m x
  · intro e
    rw [hrw]
    exact edges_pruneMinDegree _ m e (edgeInv_buildGraph nodes edges directed il 0).1

theorem build_graph_min_degree_single_pass_witness :
    0 < 2 ∧
    ((∀ x, x ∈ nodeIds (buildGraph [rawN "a", rawN "b", rawN "c"]
        [rawE "a" "b", rawE "b" "c"] false false 2) ↔
        x ∈ nodeIds (buildGraph [rawN "a", rawN "b", rawN "c"]
          [rawE "a" "b", rawE "b" "c"] false false 0) ∧
        2 ≤ degree (buildGraph [rawN "a", rawN "b", rawN "c"]
          [rawE "a" "b", rawE "b" "c"] false false 0) x) ∧
    (∀ e, e ∈ (buildGraph [rawN "a", rawN "b", rawN "c"]
        [rawE "a" "b", rawE "b" "c"] false false 2).edges ↔
        e ∈ (buildGraph [rawN "a", rawN "b", rawN "c"]
          [rawE "a" "b", rawE "b" "c"] false false 0).edges ∧
        2 ≤ degree (buildGraph [rawN "a", rawN "b", rawN "c"]
          [rawE "a" "b", rawE "b" "c"] false false 0) e.src ∧
        2 ≤ degree (buildGraph [rawN "a", rawN "b", rawN "c"]
          [rawE "a" "b", rawE "b" "c"] false false 0) e.tgt) ∧
    nodeIds (buildGraph [rawN "a", rawN "b", rawN "c"]
      [rawE "a" "b", rawE "b" "c"] false false 2) = ["b"] ∧
    (buildGraph [rawN "a", rawN "b", rawN "c"]
      [rawE "a" "b", rawE "b" "c"] false false 2).edges = []) :=
  ⟨by decide, build_graph_min_degree_single_pass [rawN "a", rawN "b", rawN "c"]
    [rawE "a" "b", rawE "b" "c"] false false 2 (by decide)⟩

/-! ## The algorithm-run contract (`BaseAlgorithm.run`) -/

instance {α β : Type} [DecidableEq α] [DecidableEq β] : DecidableEq (Except α β) := fun a b =>
  match a, b with
  | Except.error x, Except.error y =>
    if h : x = y then isTrue (by rw [h]) else isFalse (fun hh => h (Except.error.inj hh))
  | Except.ok x, Except.ok y =>
    if h : x = y then isTrue (by rw [h]) else isFalse (fun hh => h (Except.ok.inj hh))
  | Except.error _, Except.ok _ => isFalse (fun hh => Except.noConfusion hh)
  | Except.ok _, Except.error _ => isFalse (fun hh => Except.noConfusion hh)

/-- The metadata dictionary `run` builds: a fixed record of optional
fields, a field being `none` when the Python dict does not carry that
key on the corresponding path. -/
structure Metadata where
  algorithm : Option String := none
  duration_seconds : Option Rat := none
  result_count : Option Nat := none
  graph_nodes : Option Nat := none
  graph_edges : Option Nat := none
  timestamp : Option Rat := none
  error : Option String := none
  written_to_dgraph : Option Bool := none
  community_nodes_created : Option Nat := none
  community_uids : Option (List (Int × String)) := none
  community_creation_error : Option String := none
deriving DecidableEq, Inhabited

/-- The keys present in the metadata dictionary, in a fixed canonical
order (the claims concern which keys are present, not their order). -/
def Metadata.presentKeys (m : Metadata) : List String :=
  (if m.algorithm.isSome then ["algorithm"] else []) ++
  (if m.duration_seconds.isSome then ["duration_seconds"] else []) ++
  (if m.result_count.isSome then ["result_count"] else []) ++
  (if m.graph_nodes.isSome then ["graph_nodes"] else []) ++
  (if m.graph_edges.isSome then ["graph_edges"] else []) ++
  (if m.timestamp.isSome then ["timestamp"] else []) ++
  (if m.error.isSome then ["error"] else []) ++
  (if m.written_to_dgraph.isSome then ["written_to_dgraph"] else []) ++
  (if m.community_nodes_created.isSome then ["community_nodes_created"] else []) ++
  (if m.community_uids.isSome then ["community_uids"] else []) ++
  (if m.community_creation_error.isSome then ["community_creation_error"] else [])

/-- The effect inputs of one `run` invocation: the graph's node and
edge counts, the wall-clock readings `time.time()` yields (`tStart` at
entry, `tAfter` at the post-compute reading that fixes the duration,
`tStamp` at the timestamp reading), the outcome of `self.compute` (an
exception message or a node-to-value mapping), the `write_to_dgraph`
flag, whether a `dgraph_client` was supplied, the boolean
`write_algorithm_results` returns, the `create_community_nodes` flag,
and the outcome of `create_community_nodes` (an exception message or a
community-to-uid mapping). -/
structure RunInput where
  graphNodes : Nat
  graphEdges : Nat
  tStart : Rat
  tAfter : Rat
  tStamp : Rat
  computeOutcome : Except String (List (String × Int))
  writeToDgraph : Bool
  hasClient : Bool
  writeSuccess : Bool
  createCommunityNodes : Bool
  createOutcome : Except String (List (Int × String))
deriving DecidableEq, Inhabited

/-- The per-instance slots of `BaseAlgorithm` that `run` mutates. -/
structure AlgState where
  last_run_time : Option Rat
  last_run_duration : Option Rat
  last_result_count : Option Nat
deriving DecidableEq, Inhabited

/-- The `{results, metadata}` dictionary `run` returns, plus a trace
flag recording whether the client's community-synthesis operation
(`create_community_nodes`) was invoked during the run. -/
structure RunOutput where
  results : List (String × Int)
  metadata : Metadata
  ccInvoked : Bool
deriving DecidableEq, Inhabited

/-- `BaseAlgorithm.run`: record the start time; return at once on a
zero-node graph with the empty-graph marker; catch a `compute`
exception into error metadata; on success update the statistics slots,
populate the metadata, and when requested perform write-back and
community creation, the latter's exception being caught into
`community_creation_error`. -/
def runAlg (name : String) (st : AlgState) (inp : RunInput) : AlgState × RunOutput :=
  let st1 : AlgState := { st with last_run_time := some inp.tStart }
  if inp.graphNodes = 0 then
    (st1, ⟨[], { error := some "Empty graph" }, false⟩)
  else
    match inp.computeOutcome with
    | Except.error e =>
      (st1, ⟨[], { algorithm := some name, error := some e,
                   duration_seconds := some (inp.tAfter - inp.tStart),
                   timestamp := some inp.tStamp }, false⟩)
    | Except.ok results =>
      let duration := inp.tAfter - inp.tStart
      let st2 : AlgState :=
        { st1 with
          last_run_duration := some duration
          last_result_count := some results.length }
      let md0 : Metadata := { algorithm := some name,
                              duration_seconds := some duration,
                              result_count := some results.length,
                              graph_nodes := some inp.graphNodes,
                              graph_edges := some inp.graphEdges,
                              timestamp := some inp.tStamp }
      if inp.writeToDgraph && inp.hasClient then
        let md1 := { md0 with written_to_dgraph := some inp.writeSuccess }
        if inp.createCommunityNodes && !results.isEmpty then
          match inp.createOutcome with
          | Except.ok uids =>
            (st2, ⟨results,
              { md1 with
                community_nodes_created := some uids.length
                community_uids := some uids }, true⟩)
          | Except.error e =>
            (st2, ⟨results, { md1 with community_creation_error := some e }, true⟩)
        else
          (st2, ⟨results, md1, false⟩)
      else
        (st2, ⟨results, md0, false⟩)

/-- The dictionary `BaseAlgorithm.get_statistics` returns. -/
structure Statistics where
  name : String
  last_run_time : Option Rat
  last_run_duration : Option Rat
  last_result_count : Option Nat
  timeout : Nat
deriving DecidableEq, Inhabited

/-- `BaseAlgorithm.get_statistics`: read the per-instance slots. -/
def getStatistics (name : String) (timeout : Nat) (st : AlgState) : Statistics :=
  ⟨name, st.last_run_time, st.last_run_duration, st.last_result_count, timeout⟩

/-- One registry entry of `CommunityDetection.run_all`: the algorithm's
registered name, its instance state, and its `run` effect inputs
(holding that algorithm's own compute outcome and parameters). -/
structure RegistryEntry where
  name : String
  state : AlgState
  input : RunInput
deriving DecidableEq, Inhabited

/-- `CommunityDetection.run_all`: run every registered algorithm in
sequence and collect `results[name] = algorithm.run(...)`. -/
def runAll (entries : List RegistryEntry) : List (String × RunOutput) :=
  entries.map (fun en => (en.name, (runAlg en.name en.state en.input).2))

/-- A sample successful run input: 1-node graph, compute returning two
results, no write-back. -/
def inpOk : RunInput :=
  ⟨1, 2, 10, 12, 12, Except.ok [("n1", 0), ("n2", 1)], false, false, true, false, Except.ok []⟩

/-- A sample failing run input: compute raises "boom". -/
def inpErr : RunInput :=
  { inpOk with computeOutcome := Except.error "boom", tStart := 20, tAfter := 23, tStamp := 23 }

/-- A sample run input on a zero-node graph. -/
def inpEmpty : RunInput := { inpOk with graphNodes := 0 }

/-- A fresh algorithm state (no run recorded yet). -/
def st0 : AlgState := ⟨none, none, none⟩

/-- C2: a run on a zero-node graph returns immediately with an empty
result and metadata that carries the "Empty graph" marker, and never
raises: the outcome is this same value whatever the `compute` outcome
would have been. -/
theorem run_empty_graph_guard (name : String) (st : AlgState) (inp : RunInput)
    (h : inp.graphNodes = 0) :
    (runAlg name st inp).2.results = [] ∧
    (runAlg name st inp).2.metadata.error = some "Empty graph" ∧
    (runAlg name st inp).2.metadata = ({ error := some "Empty graph" } : Metadata) := by
  unfold runAlg
  simp [h]

theorem run_empty_graph_guard_witness :
    inpEmpty.graphNodes = 0 ∧
    ((runAlg "louvain" st0 inpEmpty).2.results = [] ∧
     (runAlg "louvain" st0 inpEmpty).2.metadata.error = some "Empty graph" ∧
     (runAlg "louvain" st0 inpEmpty).2.metadata = ({ error := some "Empty graph" } : Metadata)) :=
  ⟨rfl, run_empty_graph_guard "louvain" st0 inpEmpty rfl⟩

/-- C1: a `compute` exception is caught — the run returns an empty
result and metadata recording the error message and the elapsed
duration; and `run_all` produces each registry entry independently, so
the entry of a failing algorithm sits beside the untouched normal
outputs of its siblings. -/
theorem run_failure_isolated :
    (∀ (name : String) (st : AlgState) (inp : RunInput) (msg : String),
      inp.graphNodes ≠ 0 → inp.computeOutcome = Except.error msg →
        (runAlg name st inp).2.results = [] ∧
        (runAlg name st inp).2.metadata.error = some msg ∧
        (runAlg name st inp).2.metadata.duration_seconds =
          some (inp.tAfter - inp.tStart)) ∧
    (∀ (l1 l2 : List RegistryEntry) (en : RegistryEntry),
      runAll (l1 ++ en :: l2) =
        runAll l1 ++ (en.name, (runAlg en.name en.state en.input).2) :: runAll l2) := by
  constructor
  · intro name st inp msg h0 hc
    unfold runAlg
    simp [h0, hc]
  · intro l1 l2 en
    unfold runAll
    simp

theorem run_failure_isolated_witness :
    inpErr.graphNodes ≠ 0 ∧
    inpErr.computeOutcome = Except.error "boom" ∧
    ((runAlg "leiden" st0 inpErr).2.results = [] ∧
     (runAlg "leiden" st0 inpErr).2.metadata.error = some "boom" ∧
     (runAlg "leiden" st0 inpErr).2.metadata.duration_seconds =
       some (inpErr.tAfter - inpErr.tStart)) ∧
    runAll [⟨"louvain", st0, inpOk⟩, ⟨"leiden", st0, inpErr⟩,
        ⟨"label_propagation", st0, inpOk⟩] =
      runAll [⟨"louvain", st0, inpOk⟩] ++
        ("leiden", (runAlg "leiden" st0 inpErr).2) ::
          runAll [⟨"label_propagation", st0, inpOk⟩] :=
  ⟨by decide, rfl,
   run_failure_isolated.1 "leiden" st0 inpErr "boom" (by decide) rfl,
   run_failure_isolated.2 [⟨"louvain", st0, inpOk⟩]
     [⟨"label_propagation", st0, inpOk⟩] ⟨"leiden", st0, inpErr⟩⟩

/-- A run input with community creation requested and a client
supplied but write-back switched off; compute succeeds non-empty. -/
def inpCreateNoWrite : RunInput :=
  { inpOk with
    writeToDgraph := false
    hasClient := true
    createCommunityNodes := true
    createOutcome := Except.error "create failed" }

/-- A run input on the write-back path with community creation
requested and the creation call raising. -/
def inpCreateErr : RunInput :=
  { inpOk with
    writeToDgraph := true
    hasClient := true
    createCommunityNodes := true
    createOutcome := Except.error "create failed" }

/-- C8 counterexample: with `create_community_nodes` requested, a
writer supplied and a non-empty computed result, but `write_to_dgraph`
false, the community-synthesis operation is not invoked — the creation
step is nested inside the write-back branch, which the claim does not
require. -/
theorem run_create_without_write_counterexample :
    inpCreateNoWrite.createCommunityNodes = true ∧
    inpCreateNoWrite.hasClient = true ∧
    (runAlg "louvain" st0 inpCreateNoWrite).2.results ≠ [] ∧
    (runAlg "louvain" st0 inpCreateNoWrite).2.ccInvoked = false := by decide

/-- C8 (amended): when write-back is requested, a writer is supplied,
`create_community_nodes` is requested, and the computed result is
non-empty, the writer's community-synthesis operation is invoked; an
exception it raises is caught and recorded in the metadata's
community-creation-error field, the run still returning the computed
results with their populated metadata. -/
theorem run_community_creation_error_captured
    (name : String) (st : AlgState) (inp : RunInput)
    (results : List (String × Int))
    (h0 : inp.graphNodes ≠ 0)
    (hc : inp.computeOutcome = Except.ok results)
    (hr : results ≠ [])
    (hw : inp.writeToDgraph = true) (hcl : inp.hasClient = true)
    (hcc : inp.createCommunityNodes = true) :
    (runAlg name st inp).2.ccInvoked = true ∧
    (runAlg name st inp).2.results = results ∧
    (runAlg name st inp).2.metadata.written_to_dgraph = some inp.writeSuccess ∧
    (∀ msg, inp.createOutcome = Except.error msg →
      (runAlg name st inp).2.metadata.community_creation_error = some msg) := by
  unfold runAlg
  rcases hco : inp.createOutcome with msg | uids <;>
    simp [h0, hc, hw, hcl, hcc, hr, hco]

theorem run_community_creation_error_captured_witness :
    inpCreateErr.graphNodes ≠ 0 ∧
    inpCreateErr.computeOutcome = Except.ok [("n1", 0), ("n2", 1)] ∧
    ([("n1", (0 : Int)), ("n2", 1)] ≠ ([] : List (String × Int))) ∧
    inpCreateErr.writeToDgraph = true ∧
    inpCreateErr.hasClient = true ∧
    inpCreateErr.createCommunityNodes = true ∧
    ((runAlg "louvain" st0 inpCreateErr).2.ccInvoked = true ∧
     (runAlg "louvain" st0 inpCreateErr).2.results = [("n1", 0), ("n2", 1)] ∧
     (runAlg "louvain" st0 inpCreateErr).2.metadata.written_to_dgraph =
       some inpCreateErr.writeSuccess ∧
     (∀ msg, inpCreateErr.createOutcome = Except.error msg →
       (runAlg "louvain" st0 inpCreateErr).2.metadata.community_creation_error =
         some msg)) :=
  ⟨by decide, rfl, by decide, rfl, rfl, rfl,
   run_community_creation_error_captured "louvain" st0 inpCreateErr
     [("n1", 0), ("n2", 1)] (by decide) rfl (by decide) rfl rfl rfl⟩

/-- C9 counterexample: a successful run (two results, clock readings
10 and 12) followed by a failed run (clock readings 20 and 23) leaves
the statistics reporting the earlier run's duration (2, not the failed
run's 3) and result count (2, not the failed run's 0); only the
timestamp slot reflects the most recent invocation — refuting the
claim that all three slots are overwritten on every run. -/
theorem statistics_stale_counterexample :
    (getStatistics "louvain" 300
      (runAlg "louvain" (runAlg "louvain" st0 inpOk).1 inpErr).1).last_run_time =
        some inpErr.tStart ∧
    (getStatistics "louvain" 300
      (runAlg "louvain" (runAlg "louvain" st0 inpOk).1 inpErr).1).last_run_duration =
        some (inpOk.tAfter - inpOk.tStart) ∧
    (getStatistics "louvain" 300
      (runAlg "louvain" (runAlg "louvain" st0 inpOk).1 inpErr).1).last_result_count =
        some 2 ∧
    inpOk.tAfter - inpOk.tStart ≠ inpErr.tAfter - inpErr.tStart ∧
    (runAlg "louvain" (runAlg "louvain" st0 inpOk).1 inpErr).2.results.length = 0 ∧
    (2 : Nat) ≠ 0 := by
  refine ⟨rfl, rfl, rfl, ?_, rfl, by decide⟩
  show (12 : Rat) - 10 ≠ (23 : Rat) - 20
  norm_num

theorem runAlg_fst_empty (name : String) (st : AlgState) (inp : RunInput)
    (h : inp.graphNodes = 0) :
    (runAlg name st inp).1 = { st with last_run_time := some inp.tStart } := by
  unfold runAlg
  simp [h]

theorem runAlg_fst_error (name : String) (st : AlgState) (inp : RunInput)
    (msg : String) (h0 : inp.graphNodes ≠ 0)
    (hc : inp.computeOutcome = Except.error msg) :
    (runAlg name st inp).1 = { st with last_run_time := some inp.tStart } := by
  unfold runAlg
  simp [h0, hc]

theorem runAlg_fst_ok (name : String) (st : AlgState) (inp : RunInput)
    (results : List (String × Int)) (h0 : inp.graphNodes ≠ 0)
    (hc : inp.computeOutcome = Except.ok results) :
    (runAlg name st inp).1 =
      { last_run_time := some inp.tStart
        last_run_duration := some (inp.tAfter - inp.tStart)
        last_result_count := some results.length } := by
  unfold runAlg
  simp [h0, hc]
  split <;> (try split) <;> (try split) <;> rfl

/-- C9 (amended): the timestamp slot is overwritten by every
invocation of `run`; the duration and result-count slots are
overwritten only by an invocation whose compute succeeds on a
non-empty graph — a failed or empty-graph run leaves them at their
previous values. -/
theorem statistics_single_slot
    (name sname : String) (timeout : Nat) (st : AlgState) (inp : RunInput) :
    (getStatistics sname timeout (runAlg name st inp).1).last_run_time =
      some inp.tStart ∧
    (∀ results, inp.graphNodes ≠ 0 → inp.computeOutcome = Except.ok results →
      (getStatistics sname timeout (runAlg name st inp).1).last_run_duration =
        some (inp.tAfter - inp.tStart) ∧
      (getStatistics sname timeout (runAlg name st inp).1).last_result_count =
        some results.length) ∧
    ((inp.graphNodes = 0 ∨ ∃ msg, inp.computeOutcome = Except.error msg) →
      (getStatistics sname timeout (runAlg name st inp).1).last_run_duration =
        st.last_run_duration ∧
      (getStatistics sname timeout (runAlg name st inp).1).last_result_count =
        st.last_result_count) := by
  refine ⟨?_, ?_, ?_⟩
  · rcases h0 : inp.graphNodes with _ | n
    · simp [getStatistics, runAlg_fst_empty name st inp h0]
    · rcases hc : inp.computeOutcome with msg | results
      · simp [getStatistics, runAlg_fst_error name st inp msg (by omega) hc]
      · simp [getStatistics, runAlg_fst_ok name st inp results (by omega) hc]
  · intro results h0 hc
    simp [getStatistics, runAlg_fst_ok name st inp results h0 hc]
  · rintro (h0 | ⟨msg, hc⟩)
    · simp [getStatistics, runAlg_fst_empty name st inp h0]
    · by_cases h0 : inp.graphNodes = 0
      · simp [getStatistics, runAlg_fst_empty name st inp h0]
      · simp [getStatistics, runAlg_fst_error name st inp msg h0 hc]

theorem statistics_single_slot_witness :
    ((getStatistics "louvain" 300 (runAlg "louvain" st0 inpOk).1).last_run_time =
      some inpOk.tStart ∧
    (∀ results, inpOk.graphNodes ≠ 0 → inpOk.computeOutcome = Except.ok results →
      (getStatistics "louvain" 300 (runAlg "louvain" st0 inpOk).1).last_run_duration =
        some (inpOk.tAfter - inpOk.tStart) ∧
      (getStatistics "louvain" 300 (runAlg "louvain" st0 inpOk).1).last_result_count =
        some results.length) ∧
    ((inpOk.graphNodes = 0 ∨ ∃ msg, inpOk.computeOutcome = Except.error msg) →
      (getStatistics "louvain" 300 (runAlg "louvain" st0 inpOk).1).last_run_duration =
        st0.last_run_duration ∧
      (getStatistics "louvain" 300 (runAlg "louvain" st0 inpOk).1).last_result_count =
        st0.last_result_count)) :=
  statistics_single_slot "louvain" "louvain" 300 st0 inpOk

/-- C10 counterexample: the empty-graph metadata is solely the error
marker, but a compute-failure run's metadata additionally carries the
algorithm name, duration and timestamp keys — the two shapes differ,
refuting the claim that the cases are distinguishable only by the
error string and not by metadata shape (and the failure path carries
neither result count nor graph counts, contrary to the claim's "every
other return path"). -/
theorem empty_graph_metadata_shape_counterexample :
    (runAlg "louvain" st0 inpEmpty).2.metadata.presentKeys = ["error"] ∧
    (runAlg "louvain" st0 inpErr).2.metadata.presentKeys =
      ["algorithm", "duration_seconds", "timestamp", "error"] ∧
    (runAlg "louvain" st0 inpEmpty).2.metadata.presentKeys ≠
      (runAlg "louvain" st0 inpErr).2.metadata.presentKeys ∧
    (runAlg "louvain" st0 inpEmpty).2.metadata.error = some "Empty graph" ∧
    (runAlg "louvain" st0 inpErr).2.metadata.error = some "boom" := by decide

/-- C10 (amended): the metadata returned for a zero-node graph
consists solely of the field error = "Empty graph", omitting every
other field; a genuine computation failure uses the same error key but
its metadata additionally carries the algorithm name, duration and
timestamp (and, like the empty-graph path, no result count or graph
counts), so the two cases are distinguishable by metadata shape as
well as by the error string. -/
theorem empty_graph_metadata_shape
    (name : String) (st : AlgState) (inp : RunInput) :
    (inp.graphNodes = 0 →
      (runAlg name st inp).2.metadata = ({ error := some "Empty graph" } : Metadata) ∧
      (runAlg name st inp).2.metadata.presentKeys = ["error"]) ∧
    (∀ msg, inp.graphNodes ≠ 0 → inp.computeOutcome = Except.error msg →
      (runAlg name st inp).2.metadata.error = some msg ∧
      (runAlg name st inp).2.metadata.presentKeys =
        ["algorithm", "duration_seconds", "timestamp", "error"]) := by
  constructor
  · intro h0
    unfold runAlg
    simp [h0]
    rfl
  · intro msg h0 hc
    unfold runAlg
    simp [h0, hc]
    rfl

theorem empty_graph_metadata_shape_witness :
    (inpEmpty.graphNodes = 0 →
      (runAlg "louvain" st0 inpEmpty).2.metadata =
        ({ error := some "Empty graph" } : Metadata) ∧
      (runAlg "louvain" st0 inpEmpty).2.metadata.presentKeys = ["error"]) ∧
    (∀ msg, inpEmpty.graphNodes ≠ 0 → inpEmpty.computeOutcome = Except.error msg →
      (runAlg "louvain" st0 inpEmpty).2.metadata.error = some msg ∧
      (runAlg "louvain" st0 inpEmpty).2.metadata.presentKeys =
        ["algorithm", "duration_seconds", "timestamp", "error"]) :=
  empty_graph_metadata_shape "louvain" st0 inpEmpty

/-! ## The result writer: scalar write-back (`DgraphClient.write_algorithm_results`) -/

/-- One scalar write-back mutation of `write_algorithm_results`: the
target node's uid, its `<algorithm>_score` value, and one
`<algorithm>_<key>` attribute per metadata entry. -/
structure ScalarMutation where
  uid : String
  score : Int
  meta : List (String × String)
deriving DecidableEq, Inhabited

/-- Build the per-node mutation of `write_algorithm_results`. -/
def mkScalarMutation (algorithmName : String) (metadata : List (String × String))
    (p : String × Int) : ScalarMutation :=
  ⟨p.1, p.2, metadata.map (fun q => (algorithmName ++ "_" ++ q.1, q.2))⟩

/-- The batching loop `for i in range(0, len(mutations), batch_size)`
with `batch = mutations[i:i+100]` (batch_size = 100): slice the list
100 elements at a time.  The list length serves as structural fuel. -/
def chunksOfAux {α : Type} : Nat → List α → List (List α)
  | 0, _ => []
  | _, [] => []
  | fuel + 1, l => l.take 100 :: chunksOfAux fuel (l.drop 100)

/-- The batches of 100 that `write_algorithm_results` submits. -/
def chunks100 {α : Type} (l : List α) : List (List α) :=
  chunksOfAux l.length l

theorem chunksOfAux_nil {α : Type} (fuel : Nat) :
    chunksOfAux fuel ([] : List α) = [] := by
  cases fuel <;> rfl

theorem chunksOfAux_cons_of_ne {α : Type} (fuel : Nat) (l : List α) (hne : l ≠ []) :
    chunksOfAux (fuel + 1) l = l.take 100 :: chunksOfAux fuel (l.drop 100) := by
  cases l with
  | nil => exact absurd rfl hne
  | cons a l' => rfl

theorem chunksOfAux_length {α : Type} (fuel : Nat) (l : List α)
    (h : l.length ≤ fuel) :
    (chunksOfAux fuel l).length = (l.length + 99) / 100 := by
  induction fuel generalizing l with
  | zero =>
    have hnil : l = [] := List.eq_nil_of_length_eq_zero (Nat.le_zero.mp h)
    subst hnil
    rw [chunksOfAux_nil]
    simp only [List.length_nil]
  | succ fuel ih =>
    cases l with
    | nil =>
      rw [chunksOfAux_nil]
      simp only [List.length_nil]
    | cons a l' =>
      have hle : ((a :: l').drop 100).length ≤ fuel := by
        rw [List.length_drop]
        simp only [List.length_cons] at h ⊢
        omega
      rw [chunksOfAux_cons_of_ne fuel (a :: l') (by simp), List.length_cons,
        ih _ hle, List.length_drop]
      simp only [List.length_cons]
      omega

theorem chunksOfAux_flatten {α : Type} (fuel : Nat) (l : List α)
    (h : l.length ≤ fuel) :
    (chunksOfAux fuel l).flatten = l := by
  induction fuel generalizing l with
  | zero =>
    have hnil : l = [] := List.eq_nil_of_length_eq_zero (Nat.le_zero.mp h)
    subst hnil
    rw [chunksOfAux_nil]
    rfl
  | succ fuel ih =>
    cases l with
    | nil =>
      rw [chunksOfAux_nil]
      rfl
    | cons a l' =>
      have hle : ((a :: l').drop 100).length ≤ fuel := by
        rw [List.length_drop]
        simp only [List.length_cons] at h ⊢
        omega
      rw [chunksOfAux_cons_of_ne fuel (a :: l') (by simp), List.flatten_cons,
        ih _ hle, List.take_append_drop]

theorem chunksOfAux_mem {α : Type} (fuel : Nat) (l : List α)
    (h : l.length ≤ fuel) (b : List α) (hb : b ∈ chunksOfAux fuel l) :
    b.length ≤ 100 ∧ b ≠ [] := by
  induction fuel generalizing l with
  | zero =>
    have hnil : l = [] := List.eq_nil_of_length_eq_zero (Nat.le_zero.mp h)
    subst hnil
    simp [chunksOfAux_nil] at hb
  | succ fuel ih =>
    cases l with
    | nil => simp [chunksOfAux_nil] at hb
    | cons a l' =>
      have hle : ((a :: l').drop 100).length ≤ fuel := by
        rw [List.length_drop]
        simp only [List.length_cons] at h ⊢
        omega
      rw [chunksOfAux_cons_of_ne fuel (a :: l') (by simp)] at hb
      rcases List.mem_cons.mp hb with rfl | hb
      · constructor
        · simp [List.length_take]
        · simp [List.take]
      · exact ih _ hle hb

/-- The sequential submission loop of `write_algorithm_results`: the
environment `env` gives each successive `mutate` call's outcome
(`some msg` = the call raises).  Returns the successfully submitted
batches, in order, and the function's boolean return value (`false` as
soon as a call raises: the exception is caught and the loop abandoned,
with no rollback of the earlier batches). -/
def submitBatches (env : Nat → Option String) :
    List (List ScalarMutation) → Nat → List (List ScalarMutation) × Bool
  | [], _ => ([], true)
  | b :: rest, i =>
    match env i with
    | some _ => ([], false)
    | none =>
      let r := submitBatches env rest (i + 1)
      (b :: r.1, r.2)

/-- `DgraphClient.write_algorithm_results`: one mutation per node of
the result mapping, grouped into batches of 100 and submitted
sequentially. -/
def write_algorithm_results (env : Nat → Option String) (algorithmName : String)
    (results : List (String × Int)) (metadata : List (String × String)) :
    List (List ScalarMutation) × Bool :=
  submitBatches env (chunks100 (results.map (mkScalarMutation algorithmName metadata))) 0

theorem submitBatches_all_ok (env : Nat → Option String)
    (bs : List (List ScalarMutation)) (i : Nat) (h : ∀ j, env j = none) :
    submitBatches env bs i = (bs, true) := by
  induction bs generalizing i with
  | nil => rfl
  | cons b rest ih => simp [submitBatches, h i, ih (i + 1)]

theorem submitBatches_fail (env : Nat → Option String)
    (bs : List (List ScalarMutation)) (i k : Nat) (msg : String)
    (hok : ∀ j, j < k → env (i + j) = none) (hfail : env (i + k) = some msg)
    (hk : k < bs.length) :
    submitBatches env bs i = (bs.take k, false) := by
  induction bs generalizing i k with
  | nil => simp at hk
  | cons b rest ih =>
    cases k with
    | zero =>
      have hf : env i = some msg := by simpa using hfail
      simp [submitBatches, hf]
    | succ k =>
      have h0 : env i = none := by simpa using hok 0 (Nat.succ_pos k)
      have hrest : submitBatches env rest (i + 1) = (rest.take k, false) := by
        refine ih (i + 1) k (fun j hj => ?_) (by rw [show i + 1 + k = i + (k + 1) by omega]; exact hfail) (by simpa using hk)
        rw [show i + 1 + j = i + (j + 1) by omega]
        exact hok (j + 1) (by omega)
      simp [submitBatches, h0, hrest]

theorem chunks100_map_length_250 {α : Type} (l : List α) (h : l.length = 250) :
    (chunks100 l).map List.length = [100, 100, 50] := by
  have h1 : l ≠ [] := by
    intro hnil
    rw [hnil] at h
    simp at h
  have h2 : l.drop 100 ≠ [] := by
    intro hnil
    have := congrArg List.length hnil
    rw [List.length_drop, h] at this
    simp at this
  have h3 : (l.drop 100).drop 100 ≠ [] := by
    intro hnil
    have := congrArg List.length hnil
    rw [List.length_drop, List.length_drop, h] at this
    simp at this
  have h4 : ((l.drop 100).drop 100).drop 100 = [] := by
    apply List.eq_nil_of_length_eq_zero
    rw [List.length_drop, List.length_drop, List.length_drop, h]
  unfold chunks100
  rw [h]
  rw [show (250 : Nat) = 249 + 1 from rfl, chunksOfAux_cons_of_ne 249 l h1]
  rw [show (249 : Nat) = 248 + 1 from rfl, chunksOfAux_cons_of_ne 248 _ h2]
  rw [show (248 : Nat) = 247 + 1 from rfl, chunksOfAux_cons_of_ne 247 _ h3]
  rw [h4, chunksOfAux_nil]
  simp [List.length_take, List.length_drop, h]

/-- C4: `write_algorithm_results` builds one mutation per node of the
result mapping and submits them sequentially in fixed batches of 100:
with no failure it makes ceil(N/100) persistence calls whose batches
are non-empty, of size at most 100, and concatenate back to the full
mutation list (250 results make 3 calls of sizes 100, 100, 50); and
when the k-th call raises, the function returns failure (false) while
the k already-submitted batches stand — no rollback. -/
theorem write_algorithm_results_batching
    (env : Nat → Option String) (algorithmName : String)
    (results : List (String × Int)) (metadata : List (String × String)) :
    ((∀ i, env i = none) →
      (write_algorithm_results env algorithmName results metadata).2 = true ∧
      (write_algorithm_results env algorithmName results metadata).1.length =
        (results.length + 99) / 100 ∧
      (write_algorithm_results env algorithmName results metadata).1.flatten =
        results.map (mkScalarMutation algorithmName metadata) ∧
      (∀ b ∈ (write_algorithm_results env algorithmName results metadata).1,
        b.length ≤ 100 ∧ b ≠ []) ∧
      (results.length = 250 →
        (write_algorithm_results env algorithmName results metadata).1.map
          List.length = [100, 100, 50])) ∧
    (∀ k msg, (∀ j, j < k → env j = none) → env k = some msg →
      k < (results.length + 99) / 100 →
      write_algorithm_results env algorithmName results metadata =
        ((chunks100 (results.map (mkScalarMutation algorithmName metadata))).take k,
          false)) := by
  have hlen : (results.map (mkScalarMutation algorithmName metadata)).length =
      results.length := List.length_map ..
  constructor
  · intro hall
    have hsub := submitBatches_all_ok env
      (chunks100 (results.map (mkScalarMutation algorithmName metadata))) 0 hall
    unfold write_algorithm_results
    rw [hsub]
    refine ⟨rfl, ?_, ?_, ?_, ?_⟩
    · rw [chunks100, chunksOfAux_length _ _ (le_refl _), hlen]
    · rw [chunks100, chunksOfAux_flatten _ _ (le_refl _)]
    · intro b hb
      exact chunksOfAux_mem _ _ (le_refl _) b hb
    · intro h250
      exact chunks100_map_length_250 _ (by rw [hlen, h250])
  · intro k msg hok hfail hk
    unfold write_algorithm_results
    refine submitBatches_fail env _ 0 k msg
      (fun j hj => by simpa using hok j hj) (by simpa using hfail) ?_
    rw [chunks100, chunksOfAux_length _ _ (le_refl _), hlen]
    exact hk

/-- A store environment whose every mutation call succeeds. -/
def envOk : Nat → Option String := fun _ => none

/-- A store environment whose second mutation call raises. -/
def envFail1 : Nat → Option String := fun i => if i = 1 then some "db down" else none

/-- A concrete result mapping of 250 nodes. -/
def results250 : List (String × Int) := List.replicate 250 ("0x1", 0)

theorem write_algorithm_results_batching_witness :
    (write_algorithm_results envOk "pagerank" results250 []).2 = true ∧
    (write_algorithm_results envOk "pagerank" results250 []).1.map List.length =
      [100, 100, 50] ∧
    write_algorithm_results envFail1 "pagerank" results250 [] =
      ((chunks100 (results250.map (mkScalarMutation "pagerank" []))).take 1,
        false) :=
  ⟨((write_algorithm_results_batching envOk "pagerank" results250 []).1
      (fun _ => rfl)).1,
   ((write_algorithm_results_batching envOk "pagerank" results250 []).1
      (fun _ => rfl)).2.2.2.2 (by simp only [results250, List.length_replicate]),
   (write_algorithm_results_batching envFail1 "pagerank" results250 []).2 1 "db down"
     (fun j hj => by
       have hj0 : j = 0 := by omega
       subst hj0
       rfl)
     rfl (by simp only [results250, List.length_replicate]; omega)⟩

/-! ## The result writer: community entities (`DgraphClient.create_community_nodes`) -/

/-- One community-entity mutation: type tag "Community" is implicit in
the embedding; the synthetic name, generating algorithm, community id,
member count, member reference list and metadata-derived attributes
mirror the dictionary built in `create_community_nodes`. -/
structure CommunityMutation where
  name : String
  algorithm : String
  community_id : Int
  member_count : Nat
  members : List String
  meta : List (String × String)
deriving DecidableEq, Inhabited

/-- Build one community mutation from a group. -/
def mkCommunityMutation (alg : String) (cid : Int) (members : List String)
    (metadata : List (String × String)) : CommunityMutation :=
  ⟨alg ++ "_community_" ++ toString cid, alg, cid, members.length, members,
   metadata.map (fun q => (alg ++ "_" ++ q.1, q.2))⟩

/-- One step of the grouping loop of `create_community_nodes`: append
the entity to its community's member list, creating the community's
entry at the end on first sight (dict insertion order). -/
def groupInsert (acc : List (Int × List String)) (uid : String) (cid : Int) :
    List (Int × List String) :=
  if acc.any (fun p => p.1 = cid) then
    acc.map (fun p => if p.1 = cid then (p.1, p.2 ++ [uid]) else p)
  else
    acc ++ [(cid, [uid])]

/-- `community_members`: the partition grouped by community id. -/
def communityMembers (communities : List (String × Int)) :
    List (Int × List String) :=
  communities.foldl (fun acc p => groupInsert acc p.1 p.2) []

/-- The per-community submission loop of `create_community_nodes`: one
`mutate` call per group, sequential; the environment gives each
successive call's outcome (an exception message, or the store's
assigned-uid mapping).  An entry is added to the returned mapping only
when the call succeeds with a non-empty uid mapping (its first uid
value is used).  An exception anywhere stops the loop and propagates
(re-raised by the outer handler).  The first component traces the
mutations submitted, the failing one included. -/
def ccnLoop (alg : String) (metadata : List (String × String)) :
    (Nat → Except String (List (String × String))) →
      List (Int × List String) →
      List CommunityMutation × Except String (List (Int × String))
  | _, [] => ([], Except.ok [])
  | env, (cid, members) :: rest =>
    let cm := mkCommunityMutation alg cid members metadata
    match env 0 with
    | Except.error e => ([cm], Except.error e)
    | Except.ok uids =>
      let r := ccnLoop alg metadata (fun i => env (i + 1)) rest
      (cm :: r.1,
        match r.2 with
        | Except.error e => Except.error e
        | Except.ok m =>
          Except.ok
            (match uids with
             | [] => m
             | q :: _ => (cid, q.2) :: m))

/-- `DgraphClient.create_community_nodes`: group the partition by
community id, then submit one community mutation per group. -/
def create_community_nodes (env : Nat → Except String (List (String × String)))
    (alg : String) (communities : List (String × Int))
    (metadata : List (String × String)) :
    List CommunityMutation × Except String (List (Int × String)) :=
  ccnLoop alg metadata env (communityMembers communities)

theorem any_fst_eq_iff {β : Type} (acc : List (Int × β)) (cid : Int) :
    acc.any (fun p => p.1 = cid) = true ↔ cid ∈ acc.map Prod.fst := by
  simp [List.any_eq_true, List.mem_map]

theorem groupInsert_keys (acc : List (Int × List String)) (uid : String) (cid : Int) :
    (groupInsert acc uid cid).map Prod.fst =
      if cid ∈ acc.map Prod.fst then acc.map Prod.fst
      else acc.map Prod.fst ++ [cid] := by
  unfold groupInsert
  by_cases hmem : cid ∈ acc.map Prod.fst
  · rw [if_pos ((any_fst_eq_iff acc cid).mpr hmem), if_pos hmem, List.map_map]
    apply List.map_congr_left
    intro p hp
    simp only [Function.comp_apply]
    split <;> rfl
  · rw [if_neg (fun hc => hmem ((any_fst_eq_iff acc cid).mp hc)), if_neg hmem]
    simp

theorem communityMembers_keys_aux (cs : List (String × Int))
    (acc : List (Int × List String)) (x : Int) :
    x ∈ (cs.foldl (fun a p => groupInsert a p.1 p.2) acc).map Prod.fst ↔
      x ∈ acc.map Prod.fst ∨ x ∈ cs.map Prod.snd := by
  induction cs generalizing acc with
  | nil => simp
  | cons p rest ih =>
    rw [List.foldl_cons, ih, groupInsert_keys]
    by_cases hmem : p.2 ∈ acc.map Prod.fst
    · rw [if_pos hmem]
      simp only [List.map_cons, List.mem_cons]
      constructor
      · rintro (h | h)
        · exact Or.inl h
        · exact Or.inr (Or.inr h)
      · rintro (h | rfl | h)
        · exact Or.inl h
        · exact Or.inl hmem
        · exact Or.inr h
    · rw [if_neg hmem]
      simp only [List.mem_append, List.mem_singleton, List.map_cons, List.mem_cons]
      tauto

theorem communityMembers_nodup_aux (cs : List (String × Int))
    (acc : List (Int × List String)) (h : (acc.map Prod.fst).Nodup) :
    ((cs.foldl (fun a p => groupInsert a p.1 p.2) acc).map Prod.fst).Nodup := by
  induction cs generalizing acc with
  | nil => exact h
  | cons p rest ih =>
    rw [List.foldl_cons]
    apply ih
    rw [groupInsert_keys]
    by_cases hmem : p.2 ∈ acc.map Prod.fst
    · rw [if_pos hmem]
      exact h
    · rw [if_neg hmem]
      simp [List.nodup_append, h, hmem]

theorem communityMembers_length (cs : List (String × Int)) :
    (communityMembers cs).length = ((cs.map Prod.snd).dedup).length := by
  have hnd : ((communityMembers cs).map Prod.fst).Nodup :=
    communityMembers_nodup_aux cs [] (by simp)
  have hmem : ∀ x, x ∈ (communityMembers cs).map Prod.fst ↔
      x ∈ (cs.map Prod.snd).dedup := by
    intro x
    rw [List.mem_dedup]
    simpa using communityMembers_keys_aux cs [] x
  have hperm : List.Perm ((communityMembers cs).map Prod.fst)
      ((cs.map Prod.snd).dedup) := by
    apply List.perm_of_nodup_nodup_toFinset_eq hnd (List.nodup_dedup _)
    ext a
    simp only [List.mem_toFinset]
    exact hmem a
  have hl := hperm.length_eq
  rw [List.length_map] at hl
  exact hl

theorem ccnLoop_all_ok (alg : String) (metadata : List (String × String))
    (env : Nat → Except String (List (String × String)))
    (groups : List (Int × List String))
    (h : ∀ i, ∃ u, env i = Except.ok u ∧ u ≠ []) :
    (ccnLoop alg metadata env groups).1 =
      groups.map (fun g => mkCommunityMutation alg g.1 g.2 metadata) ∧
    ∃ m, (ccnLoop alg metadata env groups).2 = Except.ok m ∧
      m.map Prod.fst = groups.map Prod.fst := by
  induction groups generalizing env with
  | nil => exact ⟨rfl, [], rfl, rfl⟩
  | cons g rest ih =>
    obtain ⟨u, hu, hune⟩ := h 0
    obtain ⟨ih1, m, ihm, ihk⟩ := ih (fun i => env (i + 1)) (fun i => h (i + 1))
    cases g with
    | mk cid members =>
      cases u with
      | nil => exact absurd rfl hune
      | cons q qrest =>
        refine ⟨?_, (cid, q.2) :: m, ?_, ?_⟩
        · simp only [ccnLoop, hu, ih1, List.map_cons]
        · simp only [ccnLoop, hu, ihm]
        · simp only [List.map_cons, ihk]

theorem ccnLoop_fail (alg : String) (metadata : List (String × String))
    (env : Nat → Except String (List (String × String)))
    (groups : List (Int × List String)) (k : Nat) (msg : String)
    (hok : ∀ j, j < k → ∃ u, env j = Except.ok u)
    (hfail : env k = Except.error msg) (hk : k < groups.length) :
    (ccnLoop alg metadata env groups).2 = Except.error msg := by
  induction groups generalizing env k with
  | nil => simp at hk
  | cons g rest ih =>
    cases g with
    | mk cid members =>
      cases k with
      | zero =>
        simp only [ccnLoop, hfail]
      | succ k =>
        obtain ⟨u, hu⟩ := hok 0 (Nat.succ_pos k)
        have hrest : (ccnLoop alg metadata (fun i => env (i + 1)) rest).2 =
            Except.error msg := by
          refine ih (fun i => env (i + 1)) k (fun j hj => hok (j + 1) (by omega))
            hfail (by simpa using hk)
        simp only [ccnLoop, hu, hrest]

/-- C3: `create_community_nodes` groups the partition by community id
and issues exactly one persistence call per distinct community id:
when no submission fails the submitted mutations are exactly one per
group — ceil-free, their count equal to the number of distinct
community ids — and, each successful creation call returning a
non-empty uid assignment, the returned mapping has exactly one entry
per distinct community id, keyed by the group keys; if any individual
submission raises, the entire call raises, so no partial mapping is
ever returned. -/
theorem create_community_nodes_spec
    (env : Nat → Except String (List (String × String)))
    (alg : String) (communities : List (String × Int))
    (metadata : List (String × String)) :
    ((∀ i, ∃ u, env i = Except.ok u ∧ u ≠ []) →
      (create_community_nodes env alg communities metadata).1 =
        (communityMembers communities).map
          (fun g => mkCommunityMutation alg g.1 g.2 metadata) ∧
      (create_community_nodes env alg communities metadata).1.length =
        ((communities.map Prod.snd).dedup).length ∧
      ∃ m, (create_community_nodes env alg communities metadata).2 = Except.ok m ∧
        m.map Prod.fst = (communityMembers communities).map Prod.fst ∧
        m.length = ((communities.map Prod.snd).dedup).length) ∧
    (∀ k msg, (∀ j, j < k → ∃ u, env j = Except.ok u) → env k = Except.error msg →
      k < ((communities.map Prod.snd).dedup).length →
      (create_community_nodes env alg communities metadata).2 =
        Except.error msg) := by
  unfold create_community_nodes
  constructor
  · intro hall
    obtain ⟨h1, m, hm, hk⟩ :=
      ccnLoop_all_ok alg metadata env (communityMembers communities) hall
    refine ⟨h1, ?_, m, hm, hk, ?_⟩
    · rw [h1, List.length_map]
      exact communityMembers_length communities
    · have := congrArg List.length hk
      rw [List.length_map, List.length_map] at this
      rw [this]
      exact communityMembers_length communities
  · intro k msg hok hfail hk
    refine ccnLoop_fail alg metadata env (communityMembers communities) k msg
      hok hfail ?_
    rw [communityMembers_length communities]
    exact hk

/-- A store environment for community creation: every call succeeds,
assigning one fresh uid. -/
def envCCOk : Nat → Except String (List (String × String)) :=
  fun i => Except.ok [("blank-0", "0x" ++ toString i)]

/-- A store environment for community creation whose second call
raises. -/
def envCCFail1 : Nat → Except String (List (String × String)) :=
  fun i => if i = 1 then Except.error "txn aborted" else envCCOk i

/-- A concrete partition: three nodes in two communities. -/
def partAB : List (String × Int) := [("a", 0), ("b", 0), ("c", 1)]

theorem create_community_nodes_spec_witness :
    ((create_community_nodes envCCOk "louvain" partAB []).1 =
        (communityMembers partAB).map
          (fun g => mkCommunityMutation "louvain" g.1 g.2 []) ∧
      (create_community_nodes envCCOk "louvain" partAB []).1.length =
        ((partAB.map Prod.snd).dedup).length ∧
      ∃ m, (create_community_nodes envCCOk "louvain" partAB []).2 = Except.ok m ∧
        m.map Prod.fst = (communityMembers partAB).map Prod.fst ∧
        m.length = ((partAB.map Prod.snd).dedup).length) ∧
    (create_community_nodes envCCFail1 "louvain" partAB []).2 =
      Except.error "txn aborted" :=
  ⟨(create_community_nodes_spec envCCOk "louvain" partAB []).1
      (fun i => ⟨[("blank-0", "0x" ++ toString i)], rfl, by simp⟩),
   (create_community_nodes_spec envCCFail1 "louvain" partAB []).2 1 "txn aborted"
     (fun j hj => ⟨[("blank-0", "0x" ++ toString j)], by
       have hj0 : j = 0 := by omega
       subst hj0
       rfl⟩)
     rfl (by decide)⟩

/-! ## The community analyzer (`CommunityDetection.analyze_communities`) -/

/-- One step of the size-counting loop:
`community_sizes[comm] = community_sizes.get(comm, 0) + 1` (an absent
key is created at the end, dict insertion order). -/
def sizeInsert (acc : List (Int × Nat)) (c : Int) : List (Int × Nat) :=
  if acc.any (fun p => p.1 = c) then
    acc.map (fun p => if p.1 = c then (p.1, p.2 + 1) else p)
  else
    acc ++ [(c, 1)]

/-- The `community_sizes` dictionary of `analyze_communities`. -/
def communitySizes (partition : List (String × Int)) : List (Int × Nat) :=
  partition.foldl (fun acc p => sizeInsert acc p.2) []

/-- The community groups handed to the delegated modularity
computation: the same grouping loop as `community_members` (the source
collects members into Python sets; the embedding keeps the insertion
order, which the abstract oracle is free to ignore). -/
def communityGroups (partition : List (String × Int)) : List (List String) :=
  (communityMembers partition).map Prod.snd

/-- Python `max()` over a non-empty list. -/
def pyMax (xs : List Nat) : Nat :=
  match xs with
  | [] => 0
  | a :: rest => rest.foldl Nat.max a

/-- Python `min()` over a non-empty list. -/
def pyMin (xs : List Nat) : Nat :=
  match xs with
  | [] => 0
  | a :: rest => rest.foldl Nat.min a

/-- The dictionary `analyze_communities` returns: the error-marked
dictionary, or the full analysis (modularity `none` when the delegated
computation raised). -/
inductive AnalyzeOut where
  | err (msg : String)
  | ok (num_communities : Nat) (community_sizes : List (Int × Nat))
      (largest smallest : Nat) (average : Rat) (modularity : Option Rat)
deriving DecidableEq, Inhabited

/-- `CommunityDetection.analyze_communities`: the error marker on an
empty partition; otherwise the distinct-value count, the per-community
size dictionary, largest/smallest/average of its values, and the
delegated modularity — `none` when the delegated computation raises
(`modOracle` standing for the external
`networkx.algorithms.community.modularity` on the induced groups). -/
def analyze_communities
    (modOracle : List (List String) → Except String Rat)
    (partition : List (String × Int)) : AnalyzeOut :=
  if partition = [] then AnalyzeOut.err "No partition provided"
  else
    let num_communities := ((partition.map Prod.snd).dedup).length
    let community_sizes := communitySizes partition
    let modularity :=
      match modOracle (communityGroups partition) with
      | Except.ok q => some q
      | Except.error _ => none
    AnalyzeOut.ok num_communities community_sizes
      (if community_sizes = [] then 0 else pyMax (community_sizes.map Prod.snd))
      (if community_sizes = [] then 0 else pyMin (community_sizes.map Prod.snd))
      (if community_sizes = [] then 0 else
        ((community_sizes.map Prod.snd).sum : Rat) / (community_sizes.length : Rat))
      modularity

theorem alookup_append_single_ne_of {α β : Type} [DecidableEq α]
    (l : List (α × β)) (k : α) (v : β) (k' : α) (h : k' ≠ k) :
    alookup (l ++ [(k, v)]) k' = alookup l k' := by
  induction l with
  | nil => simp [alookup, Ne.symm h]
  | cons p rest ih =>
    by_cases hp : p.1 = k'
    · simp [alookup, hp]
    · simp [alookup, hp, ih]

theorem alookup_map_incr (acc : List (Int × Nat)) (c : Int)
    (h : acc.any (fun p => p.1 = c) = true) :
    alookup (acc.map (fun p => if p.1 = c then (p.1, p.2 + 1) else p)) c =
      some ((alookup acc c).getD 0 + 1) := by
  induction acc with
  | nil => simp at h
  | cons p rest ih =>
    by_cases hp : p.1 = c
    · simp [alookup, hp]
    · simp only [List.any_cons, Bool.or_eq_true, decide_eq_true_eq] at h
      rcases h with h | h
      · exact absurd h hp
      · simp [alookup, hp, ih h]

theorem alookup_map_incr_ne (acc : List (Int × Nat)) (c c' : Int) (h : c' ≠ c) :
    alookup (acc.map (fun p => if p.1 = c then (p.1, p.2 + 1) else p)) c' =
      alookup acc c' := by
  induction acc with
  | nil => rfl
  | cons p rest ih =>
    by_cases hp : p.1 = c
    · simp [alookup, hp, Ne.symm h, ih]
    · by_cases hp' : p.1 = c'
      · simp [alookup, hp, hp', h]
      · simp [alookup, hp, hp', ih]

theorem alookup_sizeInsert_self (acc : List (Int × Nat)) (c : Int) :
    alookup (sizeInsert acc c) c = some ((alookup acc c).getD 0 + 1) := by
  unfold sizeInsert
  split
  case isTrue h => exact alookup_map_incr acc c h
  case isFalse h =>
    rw [Bool.not_eq_true] at h
    rw [alookup_append_of_none _ _ _ (alookup_eq_none_of_any_eq_false _ _ h),
      alookup_eq_none_of_any_eq_false _ _ h]
    simp [alookup]

theorem alookup_sizeInsert_ne (acc : List (Int × Nat)) (c c' : Int) (h : c' ≠ c) :
    alookup (sizeInsert acc c) c' = alookup acc c' := by
  unfold sizeInsert
  split
  · exact alookup_map_incr_ne acc c c' h
  · exact alookup_append_single_ne_of acc c 1 c' h

theorem sizesFold_lookup (vs : List Int) (acc : List (Int × Nat)) (c : Int) :
    alookup (vs.foldl sizeInsert acc) c =
      match alookup acc c with
      | some k => some (k + vs.count c)
      | none => if c ∈ vs then some (vs.count c) else none := by
  induction vs generalizing acc with
  | nil =>
    cases hl : alookup acc c <;> simp [hl]
  | cons v rest ih =>
    rw [List.foldl_cons, ih]
    by_cases hv : c = v
    · subst hv
      rw [alookup_sizeInsert_self]
      cases hl : alookup acc c <;> simp [List.count_cons, hl] <;> omega
    · rw [alookup_sizeInsert_ne acc v c hv]
      cases hl : alookup acc c <;> simp [List.count_cons, hv, hl]

theorem sizeInsert_keys (acc : List (Int × Nat)) (c : Int) :
    (sizeInsert acc c).map Prod.fst =
      if c ∈ acc.map Prod.fst then acc.map Prod.fst
      else acc.map Prod.fst ++ [c] := by
  unfold sizeInsert
  by_cases hmem : c ∈ acc.map Prod.fst
  · rw [if_pos ((any_fst_eq_iff acc c).mpr hmem), if_pos hmem, List.map_map]
    apply List.map_congr_left
    intro p hp
    simp only [Function.comp_apply]
    split <;> rfl
  · rw [if_neg (fun hc => hmem ((any_fst_eq_iff acc c).mp hc)), if_neg hmem]
    simp

theorem sizesFold_keys_mem (vs : List Int) (acc : List (Int × Nat)) (x : Int) :
    x ∈ (vs.foldl sizeInsert acc).map Prod.fst ↔
      x ∈ acc.map Prod.fst ∨ x ∈ vs := by
  induction vs generalizing acc with
  | nil => simp
  | cons v rest ih =>
    rw [List.foldl_cons, ih, sizeInsert_keys]
    by_cases hmem : v ∈ acc.map Prod.fst
    · rw [if_pos hmem]
      simp only [List.mem_cons]
      constructor
      · rintro (h | h)
        · exact Or.inl h
        · exact Or.inr (Or.inr h)
      · rintro (h | rfl | h)
        · exact Or.inl h
        · exact Or.inl hmem
        · exact Or.inr h
    · rw [if_neg hmem]
      simp only [List.mem_append, List.mem_singleton, List.mem_cons]
      tauto

theorem sizesFold_nodup (vs : List Int) (acc : List (Int × Nat))
    (h : (acc.map Prod.fst).Nodup) :
    ((vs.foldl sizeInsert acc).map Prod.fst).Nodup := by
  induction vs generalizing acc with
  | nil => exact h
  | cons v rest ih =>
    rw [List.foldl_cons]
    apply ih
    rw [sizeInsert_keys]
    by_cases hmem : v ∈ acc.map Prod.fst
    · rw [if_pos hmem]
      exact h
    · rw [if_neg hmem]
      simp [List.nodup_append, h, hmem]

theorem alookup_eq_iff_mem {α β : Type} [DecidableEq α] (l : List (α × β))
    (hnd : (l.map Prod.fst).Nodup) (c : α) (k : β) :
    (c, k) ∈ l ↔ alookup l c = some k := by
  induction l with
  | nil => simp [alookup]
  | cons p rest ih =>
    simp only [List.map_cons, List.nodup_cons] at hnd
    by_cases hp : p.1 = c
    · constructor
      · intro h
        rcases List.mem_cons.mp h with h | h
        · simp only [alookup, if_pos hp]
          rw [← h]
        · exact absurd (hp ▸ List.mem_map.mpr ⟨(c, k), h, rfl⟩) hnd.1
      · intro h
        simp only [alookup, if_pos hp] at h
        have h2 : p = (c, k) := by
          cases p with
          | mk p1 p2 => simp at hp h ⊢; exact ⟨hp, h⟩
        exact List.mem_cons.mpr (Or.inl h2.symm)
    · constructor
      · intro h
        rcases List.mem_cons.mp h with h | h
        · exact absurd (congrArg Prod.fst h.symm) hp
        · simp only [alookup, if_neg hp]
          exact (ih hnd.2).mp h
      · intro h
        simp only [alookup, if_neg hp] at h
        exact List.mem_cons.mpr (Or.inr ((ih hnd.2).mpr h))

theorem communitySizes_eq_map (partition : List (String × Int)) :
    communitySizes partition = (partition.map Prod.snd).foldl sizeInsert [] := by
  rw [communitySizes, List.foldl_map]

theorem start_le_pyMax_foldl (xs : List Nat) (a : Nat) :
    a ≤ xs.foldl Nat.max a := by
  induction xs generalizing a with
  | nil => exact le_refl _
  | cons x rest ih =>
    rw [List.foldl_cons]
    exact (Nat.le_max_left a x).trans (ih (Nat.max a x))

theorem pyMax_foldl_mem (xs : List Nat) (a : Nat) :
    xs.foldl Nat.max a = a ∨ xs.foldl Nat.max a ∈ xs := by
  induction xs generalizing a with
  | nil => exact Or.inl rfl
  | cons x rest ih =>
    rw [List.foldl_cons]
    rcases ih (Nat.max a x) with h | h
    · rcases Nat.le_total a x with hle | hle
      · exact Or.inr (List.mem_cons.mpr (Or.inl (h.trans (Nat.max_eq_right hle))))
      · exact Or.inl (h.trans (Nat.max_eq_left hle))
    · exact Or.inr (List.mem_cons.mpr (Or.inr h))

theorem le_pyMax_foldl (xs : List Nat) (a x : Nat) (hx : x ∈ xs) :
    x ≤ xs.foldl Nat.max a := by
  induction xs generalizing a with
  | nil => simp at hx
  | cons y rest ih =>
    rw [List.foldl_cons]
    rcases List.mem_cons.mp hx with rfl | hx
    · exact (Nat.le_max_right a x).trans (start_le_pyMax_foldl rest (Nat.max a x))
    · exact ih (Nat.max a y) hx

theorem pyMax_mem (xs : List Nat) (h : xs ≠ []) : pyMax xs ∈ xs := by
  cases xs with
  | nil => exact absurd rfl h
  | cons a rest =>
    unfold pyMax
    rcases pyMax_foldl_mem rest a with hm | hm
    · exact List.mem_cons.mpr (Or.inl hm)
    · exact List.mem_cons.mpr (Or.inr hm)

theorem le_pyMax (xs : List Nat) (x : Nat) (hx : x ∈ xs) : x ≤ pyMax xs := by
  cases xs with
  | nil => simp at hx
  | cons a rest =>
    unfold pyMax
    rcases List.mem_cons.mp hx with rfl | hx
    · exact start_le_pyMax_foldl rest x
    · exact le_pyMax_foldl rest a x hx

theorem pyMin_foldl_start_le (xs : List Nat) (a : Nat) :
    xs.foldl Nat.min a ≤ a := by
  induction xs generalizing a with
  | nil => exact le_refl _
  | cons x rest ih =>
    rw [List.foldl_cons]
    exact (ih (Nat.min a x)).trans (Nat.min_le_left a x)

theorem pyMin_foldl_mem (xs : List Nat) (a : Nat) :
    xs.foldl Nat.min a = a ∨ xs.foldl Nat.min a ∈ xs := by
  induction xs generalizing a with
  | nil => exact Or.inl rfl
  | cons x rest ih =>
    rw [List.foldl_cons]
    rcases ih (Nat.min a x) with h | h
    · rcases Nat.le_total a x with hle | hle
      · exact Or.inl (h.trans (Nat.min_eq_left hle))
      · exact Or.inr (List.mem_cons.mpr (Or.inl (h.trans (Nat.min_eq_right hle))))
    · exact Or.inr (List.mem_cons.mpr (Or.inr h))

theorem pyMin_foldl_le (xs : List Nat) (a x : Nat) (hx : x ∈ xs) :
    xs.foldl Nat.min a ≤ x := by
  induction xs generalizing a with
  | nil => simp at hx
  | cons y rest ih =>
    rw [List.foldl_cons]
    rcases List.mem_cons.mp hx with rfl | hx
    · exact (pyMin_foldl_start_le rest (Nat.min a x)).trans (Nat.min_le_right a x)
    · exact ih (Nat.min a y) hx

theorem pyMin_mem (xs : List Nat) (h : xs ≠ []) : pyMin xs ∈ xs := by
  cases xs with
  | nil => exact absurd rfl h
  | cons a rest =>
    unfold pyMin
    rcases pyMin_foldl_mem rest a with hm | hm
    · exact List.mem_cons.mpr (Or.inl hm)
    · exact List.mem_cons.mpr (Or.inr hm)

theorem pyMin_le (xs : List Nat) (x : Nat) (hx : x ∈ xs) : pyMin xs ≤ x := by
  cases xs with
  | nil => simp at hx
  | cons a rest =>
    unfold pyMin
    rcases List.mem_cons.mp hx with rfl | hx
    · exact pyMin_foldl_start_le rest x
    · exact pyMin_foldl_le rest a x hx

theorem except_match_toOption (x : Except String Rat) :
    (match x with
     | Except.ok q => some q
     | Except.error _ => none) = x.toOption := by
  cases x <;> rfl

/-- C7: `analyze_communities` on a non-empty partition returns the
number of distinct community ids, the per-community size dictionary —
one entry per distinct id, each entry the membership count — the
largest and smallest of those sizes, the average (total membership
over community count), and the delegated modularity, which is `none`
exactly when the delegated computation raises, the rest of the
analysis being unaffected by the oracle; on the empty partition it
returns the error-marked dictionary instead of raising; and on
{a:0, b:0, c:1} it yields 2 communities, sizes {0:2, 1:1}, largest 2,
smallest 1, average 3/2. -/
theorem analyze_communities_spec
    (modOracle : List (List String) → Except String Rat)
    (partition : List (String × Int)) :
    (partition = [] →
      analyze_communities modOracle partition =
        AnalyzeOut.err "No partition provided") ∧
    (partition ≠ [] →
      ∃ sizes largest smallest,
        analyze_communities modOracle partition =
          AnalyzeOut.ok ((partition.map Prod.snd).dedup).length sizes largest
            smallest
            ((partition.length : Rat) /
              ((((partition.map Prod.snd).dedup).length : Nat) : Rat))
            ((modOracle (communityGroups partition)).toOption) ∧
        sizes.length = ((partition.map Prod.snd).dedup).length ∧
        (∀ c k, (c, k) ∈ sizes ↔
          c ∈ partition.map Prod.snd ∧ k = (partition.map Prod.snd).count c) ∧
        largest ∈ sizes.map Prod.snd ∧ (∀ k ∈ sizes.map Prod.snd, k ≤ largest) ∧
        smallest ∈ sizes.map Prod.snd ∧
        (∀ k ∈ sizes.map Prod.snd, smallest ≤ k)) ∧
    analyze_communities (fun _ => Except.ok (7 / 10)) partAB =
      AnalyzeOut.ok 2 [(0, 2), (1, 1)] 2 1 (3 / 2) (some (7 / 10)) ∧
    analyze_communities (fun _ => Except.error "not a partition of G") partAB =
      AnalyzeOut.ok 2 [(0, 2), (1, 1)] 2 1 (3 / 2) none := by
  refine ⟨?_, ?_, ?_, ?_⟩
  · intro h
    subst h
    rfl
  · intro hne
    have hsz : communitySizes partition =
        (partition.map Prod.snd).foldl sizeInsert [] :=
      communitySizes_eq_map partition
    have hnd2 : ((communitySizes partition).map Prod.fst).Nodup := by
      rw [hsz]
      exact sizesFold_nodup _ [] (by simp)
    have hiff : ∀ c k, (c, k) ∈ communitySizes partition ↔
        c ∈ partition.map Prod.snd ∧ k = (partition.map Prod.snd).count c := by
      intro c k
      rw [alookup_eq_iff_mem _ hnd2, hsz, sizesFold_lookup]
      by_cases hc : c ∈ partition.map Prod.snd
      · simp [alookup, hc, eq_comm]
      · simp [alookup, hc]
    have hne2 : communitySizes partition ≠ [] := by
      cases hpart : partition with
      | nil => exact absurd hpart hne
      | cons p rest =>
        intro hnil
        have hmem : p.2 ∈ (communitySizes (p :: rest)).map Prod.fst := by
          rw [communitySizes_eq_map, sizesFold_keys_mem]
          right
          exact List.mem_map.mpr ⟨p, List.mem_cons.mpr (Or.inl rfl), rfl⟩
        rw [hnil] at hmem
        simp at hmem
    have hmemk : ∀ x, x ∈ (communitySizes partition).map Prod.fst ↔
        x ∈ (partition.map Prod.snd).dedup := by
      intro x
      rw [List.mem_dedup, hsz, sizesFold_keys_mem]
      simp
    have hperm : List.Perm ((communitySizes partition).map Prod.fst)
        ((partition.map Prod.snd).dedup) := by
      apply List.perm_of_nodup_nodup_toFinset_eq hnd2 (List.nodup_dedup _)
      ext a
      simp only [List.mem_toFinset]
      exact hmemk a
    have hlen : (communitySizes partition).length =
        ((partition.map Prod.snd).dedup).length := by
      have hl := hperm.length_eq
      rw [List.length_map] at hl
      exact hl
    have hsum : ((communitySizes partition).map Prod.snd).sum = partition.length := by
      have hpt : ∀ p ∈ communitySizes partition,
          Prod.snd p = (partition.map Prod.snd).count p.1 := by
        intro p hp
        exact ((hiff p.1 p.2).mp hp).2
      calc ((communitySizes partition).map Prod.snd).sum
          = ((communitySizes partition).map
              (fun p => (partition.map Prod.snd).count p.1)).sum := by
            rw [List.map_congr_left hpt]
        _ = (((communitySizes partition).map Prod.fst).map
              (fun c => (partition.map Prod.snd).count c)).sum := by
            rw [List.map_map]
            rfl
        _ = (((partition.map Prod.snd).dedup).map
              (fun c => (partition.map Prod.snd).count c)).sum :=
            (hperm.map _).sum_eq
        _ = (partition.map Prod.snd).length :=
            List.sum_map_count_dedup_eq_length _
        _ = partition.length := List.length_map ..
    have hmapne : (communitySizes partition).map Prod.snd ≠ [] := by
      simpa using hne2
    refine ⟨communitySizes partition,
      pyMax ((communitySizes partition).map Prod.snd),
      pyMin ((communitySizes partition).map Prod.snd), ?_, hlen, hiff,
      pyMax_mem _ hmapne, fun k hk => le_pyMax _ k hk,
      pyMin_mem _ hmapne, fun k hk => pyMin_le _ k hk⟩
    unfold analyze_communities
    rw [if_neg hne]
    dsimp only
    rw [if_neg hne2, if_neg hne2, if_neg hne2, except_match_toOption, hsum, hlen]
  · rfl
  · rfl

theorem analyze_communities_spec_witness :
    partAB ≠ [] ∧
    (∃ sizes largest smallest,
      analyze_communities (fun _ => Except.ok (7 / 10)) partAB =
        AnalyzeOut.ok ((partAB.map Prod.snd).dedup).length sizes largest smallest
          ((partAB.length : Rat) /
            ((((partAB.map Prod.snd).dedup).length : Nat) : Rat))
          (some (7 / 10)) ∧
      sizes.length = ((partAB.map Prod.snd).dedup).length ∧
      (∀ c k, (c, k) ∈ sizes ↔
        c ∈ partAB.map Prod.snd ∧ k = (partAB.map Prod.snd).count c) ∧
      largest ∈ sizes.map Prod.snd ∧ (∀ k ∈ sizes.map Prod.snd, k ≤ largest) ∧
      smallest ∈ sizes.map Prod.snd ∧
      (∀ k ∈ sizes.map Prod.snd, smallest ≤ k)) :=
  ⟨by decide,
   (analyze_communities_spec (fun _ => Except.ok (7 / 10)) partAB).2.1 (by decide)⟩
